import Mathlib

/-!
Verification development for the `seisplot` Seismic object (`seismic.py`).

The Python source is shallowly embedded here:
* numpy arrays of floats become lists of rationals (`List ℚ`); a 1D, 2D or 3D
  array is an `Arr`;
* fallible numpy operations (`reshape` with a size mismatch, indexing with an
  out-of-range index, reductions over empty arrays) become `Option`-valued
  functions, with `none` standing for the raised exception;
* `Seismic.__init__` becomes `Seismic.init`, returning `none` exactly when the
  constructor raises; the `print` calls of the constructor are modelled as the
  `msgs` field so that "informational adjustment" claims can be stated;
* `math.log10` on floats is transcendental, so the dB conversion
  `20 * log10 a` is parametrised by an arbitrary map `g : ℚ → ℚ` standing for
  `log10`; theorems that need it assume only that `g` is monotone (which the
  real `log10` is), and concrete evaluations instantiate `g := id`.
-/

/-- A numpy float array of rank 1, 2 or 3, as stored in `self.data`. -/
inductive Arr where
  | a1 (v : List ℚ)
  | a2 (m : List (List ℚ))
  | a3 (c : List (List (List ℚ)))
deriving DecidableEq

/-- `arr.shape[0]`. -/
def Arr.shape0 : Arr → ℕ
  | .a1 v => v.length
  | .a2 m => m.length
  | .a3 c => c.length

/-- `arr.shape[-1]` (for a rectangular array; rows are read off the first entry). -/
def Arr.lastDim : Arr → ℕ
  | .a1 v => v.length
  | .a2 m => (m.headD []).length
  | .a3 c => ((c.headD []).headD []).length

/-- Row-major flattening of the array, as numpy `reshape` reads elements. -/
def Arr.flatten : Arr → List ℚ
  | .a1 v => v
  | .a2 m => m.flatten
  | .a3 c => (c.map List.flatten).flatten

/-- Whether the array is three-dimensional. -/
def Arr.threeD : Arr → Bool
  | .a3 _ => true
  | _ => false

/-- A 2D array is rectangular with row length `k`. -/
def rect (m : List (List ℚ)) (k : ℕ) : Prop := ∀ r ∈ m, r.length = k

/-- numpy `data.reshape((ni, nx, ns))` over the row-major flattening: succeeds
exactly when the total element count matches, never padding or truncating. -/
def reshape3 (ni nx ns : ℕ) (flat : List ℚ) : Option (List (List (List ℚ))) :=
  if flat.length = ni * nx * ns then
    some ((List.range ni).map (fun i =>
      (List.range nx).map (fun j => (flat.drop ((i * nx + j) * ns)).take ns)))
  else none

/-- The `params` dictionary read by `Seismic.__init__` (seismic.py lines 26-35).
`ninlines`/`nxlines` are plain naturals because the Python code treats an
absent key and the integer `0` the same way via defaulting and truthiness. -/
structure Params where
  ntraces : Option ℕ
  inlines : Option (List ℚ)
  xlines : Option (List ℚ)
  ninlines : ℕ
  nxlines : ℕ
  nsamples : Option ℕ
  tstart : ℚ
  dt : ℚ
deriving DecidableEq

/-- The informational `print` messages of `Seismic.__init__`. -/
inductive Msg where
  | nsamplesChanged (n : ℕ)
  | nxlinesChanged (n : ℕ)
deriving DecidableEq

/-- `self.nsamples` after lines 33 and 37-42: defaulted to `data.shape[-1]`
and forced back to `data.shape[-1]` whenever a nonzero supplied value differs. -/
def resolvedNsamples (data : Arr) (p : Params) : ℕ :=
  let n0 := p.nsamples.getD data.lastDim
  if n0 ≠ 0 ∧ n0 ≠ data.lastDim then data.lastDim else n0

/-- `self.ninlines` after lines 31 and 46-48: when the supplied value is the
default `1` and `nxlines` is positive, derived from the data shape as
`int(data.shape[0] / nxlines)`. -/
def resolvedNinlines (data : Arr) (p : Params) : ℕ :=
  if p.ninlines = 1 ∧ 0 < p.nxlines then data.shape0 / p.nxlines else p.ninlines

/-- `self.nxlines` after lines 32 and 50-52: overwritten by
`int(data.shape[0] / ninlines)` exactly when the resolved `ninlines`
exceeds 1. -/
def resolvedNxlines (data : Arr) (p : Params) : ℕ :=
  if 1 < resolvedNinlines data p then data.shape0 / resolvedNinlines data p
  else p.nxlines

/-- The informational messages printed by `Seismic.__init__`
(lines 40-42 and 53-55), in program order. -/
def initMsgs (data : Arr) (p : Params) : List Msg :=
  let n0 := p.nsamples.getD data.lastDim
  (if n0 ≠ 0 ∧ n0 ≠ data.lastDim then [Msg.nsamplesChanged data.lastDim] else [])
    ++ (if 1 < resolvedNinlines data p ∧ resolvedNxlines data p ≠ 0
          ∧ p.nxlines ≠ resolvedNxlines data p
        then [Msg.nxlinesChanged (resolvedNxlines data p)] else [])

/-- The state held by a constructed `Seismic` object. -/
structure Seismic where
  data : Arr
  ntraces : ℕ
  inlines : List ℚ
  xlines : List ℚ
  ninlines : ℕ
  nxlines : ℕ
  nsamples : ℕ
  tstart : ℚ
  dt : ℚ
  tbasis : List ℚ
  msgs : List Msg
deriving DecidableEq

/-- `np.linspace(1, n, n)`: the coordinates `1, 2, ..., n`. -/
def linspace1 (n : ℕ) : List ℚ := (List.range n).map (fun i => (Nat.cast i : ℚ) + 1)

/-- `np.arange(0, stop, step)` for a positive step: `i * step` for
`i in [0, ceil(stop/step))`. -/
def arange0 (stop step : ℚ) : List ℚ :=
  if 0 < step then (List.range ⌈stop / step⌉₊).map (fun i => (Nat.cast i : ℚ) * step)
  else []

/-- `Seismic.__init__(data, params)` (seismic.py lines 21-64). Returns `none`
exactly when the constructor raises, which happens only at the reshape of
line 56 when `ninlines * nxlines * data.shape[-1]` does not equal the number
of elements supplied. -/
def Seismic.init (data : Arr) (p : Params) : Option Seismic :=
  let ni := resolvedNinlines data p
  let nx := resolvedNxlines data p
  let ns := resolvedNsamples data p
  if 1 < ni then
    match reshape3 ni nx data.lastDim data.flatten with
    | none => none
    | some c =>
        some ⟨Arr.a3 c, p.ntraces.getD data.shape0,
              p.inlines.getD (linspace1 ni), p.xlines.getD (linspace1 nx),
              ni, nx, ns, p.tstart, p.dt,
              arange0 ((ns : ℚ) * p.dt) p.dt, initMsgs data p⟩
  else
    some ⟨data, p.ntraces.getD data.shape0,
          p.inlines.getD (linspace1 ni), p.xlines.getD (linspace1 nx),
          ni, nx, ns, p.tstart, p.dt,
          arange0 ((ns : ℚ) * p.dt) p.dt, initMsgs data p⟩

/-- `direction.lower()[0]`: `none` models the `IndexError` raised on an empty
string. -/
def lowerFirst (s : String) : Option Char :=
  match s.toList with
  | [] => none
  | ch :: _ => some ch.toLower

/-- `Seismic.get_line(l, direction)` (lines 213-221). Effective indices in
`[0, 1)` are scaled by the axis length; the float index is then truncated as
legacy numpy did. Negative effective indices (numpy wrap-around) are not
exercised by any claim and are modelled as failing, like any other index the
array cannot serve. -/
def Seismic.get_line (s : Seismic) (l : ℚ) (direction : Option String) : Option Arr :=
  match s.data with
  | Arr.a1 v => some (Arr.a1 v)
  | Arr.a2 m => some (Arr.a2 m)
  | Arr.a3 c =>
      let inl :=
        let le := if l < 1 then l * (s.ninlines : ℚ) else l
        if le < 0 then none
        else if (⌊le⌋).toNat < c.length then some (Arr.a2 (c.getD (⌊le⌋).toNat []))
        else none
      let xli :=
        let le := if l < 1 then l * (s.nxlines : ℚ) else l
        if le < 0 then none
        else if c.all (fun plane => decide ((⌊le⌋).toNat < plane.length)) then
          some (Arr.a2 (c.map (fun plane => plane.getD (⌊le⌋).toNat [])))
        else none
      match direction with
      | none => inl
      | some d =>
          match lowerFirst d with
          | none => none
          | some ch => if ch = 'i' then inl else xli

/-- `Seismic.trace_range(direction)` (lines 78-81), as a function of the
`inlines` and `xlines` attributes. The branch taken for a direction starting
with `x` evaluates `self.inlines[0], self.inlines[-1]` and discards the pair
(it can only fail); every successful call returns
`(self.xlines[0], self.xlines[-1])`. -/
def Seismic.trace_range (inl xl : List ℚ) (direction : String) : Option (ℚ × ℚ) :=
  match lowerFirst direction with
  | none => none
  | some ch =>
      if ch = 'x' ∧ inl = [] then none
      else if xl = [] then none
      else some (xl.headD 0, xl.getLastD 0)

/-- `np.amax` over a nonempty float array (0 for the empty array, on which
numpy would raise). -/
def amaxL : List ℚ → ℚ
  | [] => 0
  | x :: xs => xs.foldl max x

/-- `np.amin` over a nonempty float array (0 for the empty array, on which
numpy would raise). -/
def aminL : List ℚ → ℚ
  | [] => 0
  | x :: xs => xs.foldl min x

/-- `db = 20 * np.log10(a)` (line 147), with `log10` abstracted as `g`. -/
def dbOf (g : ℚ → ℚ) (a : List ℚ) : List ℚ := a.map (fun v => 20 * g v)

/-- `sig = db - np.amax(db) + 20` (line 148): the dB curve shifted so the
threshold 20 dB below peak sits at zero. -/
def dbShift (db : List ℚ) : List ℚ := db.map (fun v => v - amaxL db + 20)

/-- `((sig[1:] >= 0) & (sig[:-1] < 0)).nonzero()` (line 149): the indices `z`
where the shifted curve goes from negative at `z` to non-negative at `z+1`. -/
def crossingIdxs (sig : List ℚ) : List ℕ :=
  (List.range (sig.length - 1)).filter
    (fun z => decide (sig.getD z 0 < 0 ∧ 0 ≤ sig.getD (z + 1) 0))

/-- `[z - sig[z] / (sig[z+1] - sig[z]) for z in indices]` (line 150): each
crossing index converted by linear interpolation to the fractional bin
`z + (-sig[z]) / (sig[z+1] - sig[z])` between the two bracketing samples. -/
def crossingBins (sig : List ℚ) : List ℚ :=
  (crossingIdxs sig).map
    (fun z => (Nat.cast z : ℚ) - sig.getD z 0 / (sig.getD (z + 1) 0 - sig.getD z 0))

/-- The sample points `(x[i], f[i])` with `x = np.arange(0, len(f))`
(line 152), against which fractional bins are mapped back to frequencies. -/
def gridPairs : ℕ → List ℚ → List (ℚ × ℚ)
  | _, [] => []
  | i, v :: vs => ((i : ℚ), v) :: gridPairs (i + 1) vs

/-- `np.interp(x, xp, fp)` over an increasing `xp`: clamps on both ends and
interpolates linearly between bracketing sample points. -/
def interp (x : ℚ) : List (ℚ × ℚ) → ℚ
  | [] => 0
  | [(_, y0)] => y0
  | (x0, y0) :: (x1, y1) :: rest =>
      if x ≤ x0 then y0
      else if x ≤ x1 then y0 + (x - x0) * (y1 - y0) / (x1 - x0)
      else interp x ((x1, y1) :: rest)

/-- The bandwidth part of `Seismic.spectrum` (lines 147-156), as a function of
the frequency axis `f` and the dB curve `db`: `none` models the `ValueError`
raised by `np.amin` on an empty crossing list; otherwise the pair
`(f_min, f_max)` obtained by back-interpolating the least and greatest
fractional crossing bins against `f`. -/
def bandwidthOf (f db : List ℚ) : Option (ℚ × ℚ) :=
  match crossingBins (dbShift db) with
  | [] => none
  | c :: cs =>
      some (interp (aminL (c :: cs)) (gridPairs 0 f),
            interp (amaxL (c :: cs)) (gridPairs 0 f))

/-- The frequency of every threshold crossing: each crossing's fractional bin
mapped back to a frequency by linear interpolation against `f`. -/
def crossFreqs (f db : List ℚ) : List ℚ :=
  (crossingBins (dbShift db)).map (fun b => interp b (gridPairs 0 f))

/-- `np.argmax`: index of the first occurrence of the maximum. -/
def argmaxFrom : ℕ → ℕ → ℚ → List ℚ → ℕ
  | _, bi, _, [] => bi
  | i, bi, bv, v :: vs =>
      if bv < v then argmaxFrom (i + 1) i v vs else argmaxFrom (i + 1) bi bv vs

/-- `np.argmax` over a list (0 on the empty list). -/
def argmaxIdx : List ℚ → ℕ
  | [] => 0
  | v :: vs => argmaxFrom 1 0 v vs

/-- `peak = f[np.argmax(amp)]` (line 177). -/
def fPeak (f a : List ℚ) : ℚ := f.getD (argmaxIdx a) 0

/-- One trace's bandwidth estimate `(f_min, f_peak, f_max)` as
`Seismic.spectrum` plus line 177 compute it from the amplitude spectrum `a`
on the frequency axis `f`. -/
def estimateTrace (g : ℚ → ℚ) (f a : List ℚ) : Option (ℚ × ℚ × ℚ) :=
  (bandwidthOf f (dbOf g a)).map (fun p => (p.1, fPeak f a, p.2))

/-- `np.mean(np.dstack(specs), axis=-1)` (line 184): the element-wise mean of
same-length spectra; `none` models the numpy error on an empty or ragged
stack. -/
def meanLists : List (List ℚ) → Option (List ℚ)
  | [] => none
  | l :: ls =>
      if ls.all (fun m => m.length == l.length) then
        some ((List.range l.length).map
          (fun i => ((l :: ls).map (fun m => m.getD i 0)).sum / ((l :: ls).length : ℚ)))
      else none

/-- `db = 20*np.log10(a); db = db - np.amax(db)` (lines 186-187): a spectrum
converted to dB and normalised so its maximum is 0 dB. -/
def dbNorm (g : ℚ → ℚ) (a : List ℚ) : List ℚ :=
  (dbOf g a).map (fun v => v - amaxL (dbOf g a))

/-- The numeric results of `Seismic.plot_spectrum` (lines 172-193): the curve
actually drawn (`dispDb`), the computed-but-unused mean spectrum, and the
ensemble statistics printed in the annotation. -/
structure EnsembleDisplay where
  meanSpec : List ℚ
  dispDb : List ℚ
  fPeakE : ℚ
  fMinE : ℚ
  fMaxE : ℚ
deriving DecidableEq

/-- The computation of `Seismic.plot_spectrum` (lines 172-190) on the selected
traces' amplitude spectra `amps` over the shared frequency axis `f`: each
trace contributes its spectrum, peak frequency and crossing extremes; then
`spec` is the element-wise mean of the spectra, while the displayed dB curve
is computed from `amp`, the loop variable still holding the LAST trace's
spectrum; `f_peak` is the mean of the per-trace peaks and `f_min`/`f_max` the
envelope of the per-trace crossing extremes. -/
def plotSpectrumCompute (g : ℚ → ℚ) (f : List ℚ) (amps : List (List ℚ)) :
    Option EnsembleDisplay := do
  let per ← amps.mapM (fun a =>
    (bandwidthOf f (dbOf g a)).map (fun p => (a, fPeak f a, p.1, p.2)))
  let lastA ← (per.map (fun r => r.1)).getLast?
  let spec ← meanLists (per.map (fun r => r.1))
  some ⟨spec, dbNorm g lastA,
        (per.map (fun r => r.2.1)).sum / (per.length : ℚ),
        aminL (per.map (fun r => r.2.2.1)),
        amaxL (per.map (fun r => r.2.2.2))⟩

/-- The header-pattern sequences that `utils.get_pattern_from_stream` extracts
from the trace headers for `Seismic.from_obspy` (lines 102, 109, 117). The
extraction itself lives in `utils.py`/`patterns.py`, outside this module; the
sequences are taken as inputs (all-zero when the pattern is not detected,
matching the `np.any` guards of the source). -/
structure ObspyDerived where
  sawtoothXlines : List ℤ
  monotonicXlines : List ℤ
  stairstepInlines : List ℤ
deriving DecidableEq

/-- `np.any(xs)`: some entry is nonzero. -/
def anyNonzero (l : List ℤ) : Bool := l.any (fun v => decide (v ≠ 0))

/-- `np.amax(xs) - np.amin(xs) + 1` (lines 105, 111, 119): the line count
derived from a detected header pattern's range. -/
def patternCount (l : List ℤ) : ℕ :=
  (l.foldl max (l.headD 0) - l.foldl min (l.headD 0) + 1).toNat

/-- `params.get(key) or value` for a list-valued key: a caller-supplied
(nonempty, hence truthy) sequence wins; otherwise the derived one is used. -/
def someOr (o : Option (List ℚ)) (v : List ℚ) : Option (List ℚ) :=
  match o with
  | some x => some x
  | none => some v

/-- The geometry resolution of `Seismic.from_obspy` (lines 99-121), as a
function of the caller-supplied `params` and the header-derived pattern
sequences. Note line 106/112: `params['nxlines'] = params.get('nxlines') or
nxlines` keeps a caller-supplied nonzero count; and line 115 unconditionally
resets `params['ninlines']` to 1 before line 120 reads it back (so the
stairstep-derived inline count never survives). dt normalisation (lines
88-94) and textual-header extraction (lines 123-133) are independent of the
geometry and not modelled. -/
def fromObspyGeometry (d : ObspyDerived) (p0 : Params) : Params :=
  let p1 :=
    if anyNonzero d.sawtoothXlines then
      { p0 with
          nxlines := if p0.nxlines ≠ 0 then p0.nxlines
                     else patternCount d.sawtoothXlines,
          xlines := someOr p0.xlines (d.sawtoothXlines.map (fun z => (Int.cast z : ℚ))) }
    else if anyNonzero d.monotonicXlines then
      { p0 with
          nxlines := if p0.nxlines ≠ 0 then p0.nxlines
                     else patternCount d.monotonicXlines,
          xlines := someOr p0.xlines (d.monotonicXlines.map (fun z => (Int.cast z : ℚ))) }
    else p0
  let p2 := { p1 with ninlines := 1 }
  if anyNonzero d.sawtoothXlines && anyNonzero d.stairstepInlines then
    { p2 with
        ninlines := if p2.ninlines ≠ 0 then p2.ninlines
                    else patternCount d.stairstepInlines,
        inlines := someOr p2.inlines (d.stairstepInlines.map (fun z => (Int.cast z : ℚ))) }
  else p2

/-- `Seismic.from_obspy` (line 135): construct the object from the stacked
trace data and the resolved params. -/
def Seismic.from_obspy (data : Arr) (d : ObspyDerived) (p : Params) : Option Seismic :=
  Seismic.init data (fromObspyGeometry d p)

/-- The sample-point list fed to `np.interp` is strictly increasing in its
first components and nondecreasing in its second components. -/
abbrev pairsInc (ps : List (ℚ × ℚ)) : Prop :=
  List.Chain' (fun p q => p.1 < q.1 ∧ p.2 ≤ q.2) ps

/-- A nondecreasing list of rationals (the shape of an rFFT frequency axis). -/
def nondecr : List ℚ → Bool
  | [] => true
  | [_] => true
  | x :: y :: rest => decide (x ≤ y) && nondecr (y :: rest)

lemma gridPairs_inc (f : List ℚ) (h : nondecr f = true) :
    ∀ i, pairsInc (gridPairs i f) := by
  induction f with
  | nil => intro i; simp [gridPairs, pairsInc]
  | cons x xs ih =>
      cases xs with
      | nil => intro i; simp [gridPairs, pairsInc]
      | cons y ys =>
          intro i
          rw [nondecr] at h
          simp only [Bool.and_eq_true, decide_eq_true_eq] at h
          have h2 := ih h.2 (i + 1)
          simp only [gridPairs] at h2 ⊢
          refine List.chain'_cons.mpr ⟨⟨?_, h.1⟩, h2⟩
          show (i : ℚ) < ((i + 1 : ℕ) : ℚ)
          exact_mod_cast Nat.lt_succ_self i

lemma interp_ge_head (ps : List (ℚ × ℚ)) :
    ∀ (a fa : ℚ), pairsInc ((a, fa) :: ps) → ∀ x, fa ≤ interp x ((a, fa) :: ps) := by
  induction ps with
  | nil => intro a fa _ x; simp [interp]
  | cons q rest ih =>
      obtain ⟨b, fb⟩ := q
      intro a fa hp x
      obtain ⟨⟨hab, hfab⟩, hrest⟩ := List.chain'_cons.mp hp
      rw [interp]
      by_cases hxa : x ≤ a
      · rw [if_pos hxa]
      · rw [if_neg hxa]
        by_cases hxb : x ≤ b
        · rw [if_pos hxb]
          have hxa' : a < x := lt_of_not_le hxa
          have : 0 ≤ (x - a) * (fb - fa) / (b - a) :=
            div_nonneg (mul_nonneg (by linarith) (by linarith)) (by linarith)
          linarith
        · rw [if_neg hxb]
          exact le_trans hfab (ih b fb hrest x)

lemma interp_mono (ps : List (ℚ × ℚ)) (hp : pairsInc ps) {x y : ℚ} (hxy : x ≤ y) :
    interp x ps ≤ interp y ps := by
  induction ps with
  | nil => simp [interp]
  | cons p rest ih =>
      obtain ⟨a, fa⟩ := p
      cases rest with
      | nil => simp [interp]
      | cons q rest2 =>
          obtain ⟨b, fb⟩ := q
          obtain ⟨⟨hab, hfab⟩, hrest⟩ := List.chain'_cons.mp hp
          by_cases hxa : x ≤ a
          · have hx : interp x ((a, fa) :: (b, fb) :: rest2) = fa := by
              rw [interp, if_pos hxa]
            rw [hx]
            exact interp_ge_head _ a fa (List.chain'_cons.mpr ⟨⟨hab, hfab⟩, hrest⟩) y
          · have hya : ¬ y ≤ a := fun h => hxa (le_trans hxy h)
            by_cases hxb : x ≤ b
            · have hx : interp x ((a, fa) :: (b, fb) :: rest2)
                  = fa + (x - a) * (fb - fa) / (b - a) := by
                rw [interp, if_neg hxa, if_pos hxb]
              by_cases hyb : y ≤ b
              · have hy : interp y ((a, fa) :: (b, fb) :: rest2)
                    = fa + (y - a) * (fb - fa) / (b - a) := by
                  rw [interp, if_neg hya, if_pos hyb]
                rw [hx, hy]
                have hba : (0 : ℚ) < b - a := by linarith
                have hm : (x - a) * (fb - fa) ≤ (y - a) * (fb - fa) :=
                  mul_le_mul_of_nonneg_right (by linarith) (by linarith)
                have := (div_le_div_iff_of_pos_right hba).mpr hm
                linarith
              · have hy : interp y ((a, fa) :: (b, fb) :: rest2)
                    = interp y ((b, fb) :: rest2) := by
                  rw [interp, if_neg hya, if_neg hyb]
                rw [hx, hy]
                have hba : (0 : ℚ) < b - a := by linarith
                have h1 : (x - a) * (fb - fa) ≤ (b - a) * (fb - fa) :=
                  mul_le_mul_of_nonneg_right (by linarith) (by linarith)
                have h2 : (x - a) * (fb - fa) / (b - a) ≤ fb - fa := by
                  have := (div_le_div_iff_of_pos_right hba).mpr h1
                  rwa [mul_div_cancel_left₀ _ (ne_of_gt hba)] at this
                have h3 : fb ≤ interp y ((b, fb) :: rest2) :=
                  interp_ge_head _ b fb hrest y
                linarith
            · have hyb : ¬ y ≤ b := fun h => hxb (le_trans hxy h)
              have hx : interp x ((a, fa) :: (b, fb) :: rest2)
                  = interp x ((b, fb) :: rest2) := by
                rw [interp, if_neg hxa, if_neg hxb]
              have hy : interp y ((a, fa) :: (b, fb) :: rest2)
                  = interp y ((b, fb) :: rest2) := by
                rw [interp, if_neg hya, if_neg hyb]
              rw [hx, hy]
              exact ih hrest

lemma foldl_min_map (g : ℚ → ℚ) (hg : Monotone g) :
    ∀ (xs : List ℚ) (x : ℚ), (xs.map g).foldl min (g x) = g (xs.foldl min x) := by
  intro xs
  induction xs with
  | nil => intro x; rfl
  | cons y ys ih =>
      intro x
      simp only [List.map_cons, List.foldl_cons]
      rw [← hg.map_min, ih]

lemma foldl_max_map (g : ℚ → ℚ) (hg : Monotone g) :
    ∀ (xs : List ℚ) (x : ℚ), (xs.map g).foldl max (g x) = g (xs.foldl max x) := by
  intro xs
  induction xs with
  | nil => intro x; rfl
  | cons y ys ih =>
      intro x
      simp only [List.map_cons, List.foldl_cons]
      rw [← hg.map_max, ih]

lemma aminL_map (g : ℚ → ℚ) (hg : Monotone g) (l : List ℚ) (hl : l ≠ []) :
    aminL (l.map g) = g (aminL l) := by
  cases l with
  | nil => exact absurd rfl hl
  | cons x xs => exact foldl_min_map g hg xs x

lemma amaxL_map (g : ℚ → ℚ) (hg : Monotone g) (l : List ℚ) (hl : l ≠ []) :
    amaxL (l.map g) = g (amaxL l) := by
  cases l with
  | nil => exact absurd rfl hl
  | cons x xs => exact foldl_max_map g hg xs x

lemma foldl_min_init_mono : ∀ (ys : List ℚ) {a b : ℚ}, a ≤ b →
    ys.foldl min a ≤ ys.foldl min b := by
  intro ys
  induction ys with
  | nil => intro a b h; exact h
  | cons y ys ih => intro a b h; exact ih (min_le_min h le_rfl)

lemma foldl_min_le_foldl_max : ∀ (ys : List ℚ) (x : ℚ),
    ys.foldl min x ≤ ys.foldl max x := by
  intro ys
  induction ys with
  | nil => intro x; exact le_rfl
  | cons y ys ih =>
      intro x
      simp only [List.foldl_cons]
      exact le_trans (foldl_min_init_mono ys (min_le_max.trans le_rfl)) (ih (max x y))

lemma aminL_le_amaxL (l : List ℚ) (hl : l ≠ []) : aminL l ≤ amaxL l := by
  cases l with
  | nil => exact absurd rfl hl
  | cons x xs => exact foldl_min_le_foldl_max xs x

lemma init_some_fields (data : Arr) (p : Params) (s : Seismic)
    (h : Seismic.init data p = some s) :
    s.nsamples = resolvedNsamples data p ∧ s.tstart = p.tstart ∧ s.dt = p.dt ∧
    s.tbasis = arange0 ((resolvedNsamples data p : ℚ) * p.dt) p.dt ∧
    s.ninlines = resolvedNinlines data p ∧ s.nxlines = resolvedNxlines data p ∧
    s.msgs = initMsgs data p := by
  unfold Seismic.init at h
  by_cases hni : 1 < resolvedNinlines data p
  · simp only [hni, if_true] at h
    cases hre : reshape3 (resolvedNinlines data p) (resolvedNxlines data p)
        data.lastDim data.flatten with
    | none => rw [hre] at h; simp at h
    | some c =>
        rw [hre] at h
        simp only [Option.some.injEq] at h
        subst h
        exact ⟨rfl, rfl, rfl, rfl, rfl, rfl, rfl⟩
  · simp only [hni, if_false] at h
    simp only [Option.some.injEq] at h
    subst h
    exact ⟨rfl, rfl, rfl, rfl, rfl, rfl, rfl⟩

lemma length_arange0 (n : ℕ) (step : ℚ) (h : 0 < step) :
    (arange0 ((n : ℚ) * step) step).length = n := by
  unfold arange0
  rw [if_pos h, List.length_map, List.length_range,
    mul_div_cancel_right₀ _ (ne_of_gt h), Nat.ceil_natCast]

lemma getD_arange0 (n i : ℕ) (step : ℚ) (h : 0 < step) (hi : i < n) :
    (arange0 ((n : ℚ) * step) step).getD i 0 = (i : ℚ) * step := by
  unfold arange0
  rw [if_pos h, mul_div_cancel_right₀ _ (ne_of_gt h), Nat.ceil_natCast]
  rw [List.getD_eq_getElem?_getD, List.getElem?_map, List.getElem?_range hi]
  rfl

lemma lastDim_a2 (m : List (List ℚ)) (k : ℕ) (hwf : rect m k) (hm : m ≠ []) :
    (Arr.a2 m).lastDim = k := by
  cases m with
  | nil => exact absurd rfl hm
  | cons r rs => exact hwf r (List.mem_cons_self r rs)

lemma flatten_a2_length (m : List (List ℚ)) (k : ℕ) (hwf : rect m k) :
    (Arr.a2 m).flatten.length = m.length * k := by
  induction m with
  | nil => simp [Arr.flatten]
  | cons r rs ih =>
      have hr : r.length = k := hwf r (List.mem_cons_self r rs)
      have hrs : rect rs k := fun q hq => hwf q (List.mem_cons_of_mem r hq)
      have ih2 : rs.flatten.length = rs.length * k := ih hrs
      show (List.flatten (r :: rs)).length = (rs.length + 1) * k
      rw [List.flatten_cons, List.length_append, hr, ih2]
      ring
      
lemma headD_eq_getD_zero (l : List ℚ) (hl : l ≠ []) : l.headD 0 = l.getD 0 0 := by
  cases l with
  | nil => exact absurd rfl hl
  | cons x xs => rfl

lemma getD_mem_of_lt (l : List ℚ) (n : ℕ) (h : n < l.length) : l.getD n 0 ∈ l := by
  rw [List.getD_eq_getElem?_getD, List.getElem?_eq_getElem h]
  exact List.getElem_mem h

/-- Claim C4 (amended): for every constructed volume model with sample
interval `dt > 0`, the derived time basis is the sequence `0 + i*dt` for
`i in [0, nsamples)`: it has exactly `nsamples` entries and its first entry is
`0` — NOT `tstart`, which line 63 of the source ignores. -/
theorem claim_C4 (data : Arr) (p : Params) (s : Seismic) (hdt : 0 < p.dt)
    (h : Seismic.init data p = some s) :
    s.tbasis.length = s.nsamples ∧
    (∀ i, i < s.tbasis.length → s.tbasis.getD i 0 = (Nat.cast i : ℚ) * s.dt) ∧
    (0 < s.nsamples → s.tbasis.headD 0 = 0) := by
  obtain ⟨hns, -, hdt2, htb, -, -, -⟩ := init_some_fields data p s h
  refine ⟨?_, ?_, ?_⟩
  · rw [htb, hns]
    exact length_arange0 _ _ hdt
  · intro i hi
    rw [htb, length_arange0 _ _ hdt] at hi
    rw [htb, hdt2]
    exact getD_arange0 _ i p.dt hdt hi
  · intro hpos
    rw [hns] at hpos
    have hl : arange0 ((resolvedNsamples data p : ℚ) * p.dt) p.dt ≠ [] := by
      intro hnil
      have hlen := length_arange0 (resolvedNsamples data p) p.dt hdt
      rw [hnil] at hlen
      simp at hlen
      omega
    rw [htb, headD_eq_getD_zero _ hl, getD_arange0 _ 0 p.dt hdt hpos]
    simp

/-- Claim C4 counterexample: constructing a model with `tstart = 5`, `dt = 1`
and 2 samples yields the time basis `[0, 1]`, whose first entry `0` differs
from `tstart = 5`, refuting "its first entry equals tstart". -/
theorem claim_C4_counterexample :
    (Seismic.init (Arr.a2 [[1, 2]]) ⟨none, none, none, 1, 0, none, 5, 1⟩).map
        (fun s => (s.tbasis, s.tstart)) = some ([0, 1], 5)
    ∧ ((0 : ℚ) ≠ 5) := by
  constructor
  · norm_num [Seismic.init, resolvedNinlines, resolvedNxlines, resolvedNsamples,
      initMsgs, Arr.shape0, Arr.lastDim, linspace1, arange0, List.range_succ]
  · norm_num

/-- Claim C4 witness: the amended theorem applied to the concrete model above;
the time basis `[0, 1]` indeed has `nsamples = 2` entries. -/
theorem claim_C4_witness :
    Seismic.init (Arr.a2 [[1, 2]]) ⟨none, none, none, 1, 0, none, 5, 1⟩
      = some ⟨Arr.a2 [[1, 2]], 1, [1], [], 1, 0, 2, 5, 1, [0, 1], []⟩ ∧
    (⟨Arr.a2 [[1, 2]], 1, [1], [], 1, 0, 2, 5, 1, [0, 1], []⟩ : Seismic).tbasis.length
      = (⟨Arr.a2 [[1, 2]], 1, [1], [], 1, 0, 2, 5, 1, [0, 1], []⟩ : Seismic).nsamples :=
  ⟨by
    norm_num [Seismic.init, resolvedNinlines, resolvedNxlines, resolvedNsamples,
      initMsgs, Arr.shape0, Arr.lastDim, linspace1, arange0, List.range_succ],
   (claim_C4 (Arr.a2 [[1, 2]]) ⟨none, none, none, 1, 0, none, 5, 1⟩
      ⟨Arr.a2 [[1, 2]], 1, [1], [], 1, 0, 2, 5, 1, [0, 1], []⟩
      (by norm_num)
      (by
        norm_num [Seismic.init, resolvedNinlines, resolvedNxlines, resolvedNsamples,
          initMsgs, Arr.shape0, Arr.lastDim, linspace1, arange0, List.range_succ])).1⟩

/-- Claim C10: for every non-empty direction string, `trace_range` returns the
pair `(xlines[0], xlines[-1])`; in particular the inline and crossline
directions return the same pair, since the `x`-guarded branch computes the
inlines endpoints but discards them without returning. -/
theorem claim_C10 (inl xl : List ℚ) (direction : String)
    (hd : direction.toList ≠ []) (hi : inl ≠ []) (hx : xl ≠ []) :
    Seismic.trace_range inl xl direction = some (xl.headD 0, xl.getLastD 0) := by
  unfold Seismic.trace_range lowerFirst
  cases hL : direction.toList with
  | nil => exact absurd hL hd
  | cons c cs =>
      show (if c.toLower = 'x' ∧ inl = [] then none
            else if xl = [] then (none : Option (ℚ × ℚ))
            else some (xl.headD 0, xl.getLastD 0))
          = some (xl.headD 0, xl.getLastD 0)
      rw [if_neg (fun hcon => hi hcon.2), if_neg hx]

/-- Claim C10 witness: a concrete object answers the same endpoints pair for
an inline-direction request. -/
theorem claim_C10_witness :
    Seismic.trace_range [1, 2] [3, 4, 5] "il" = some (3, 5) := by
  have h := claim_C10 [1, 2] [3, 4, 5] "il" (by decide) (by decide) (by decide)
  simpa using h

/-- Claim C2: whenever the shifted dB curve has no negative-to-nonnegative
threshold crossing between any adjacent samples — in particular whenever the
amplitude spectrum is flat (all samples equal), so the dB curve is constant —
the bandwidth computation yields `none` (the `ValueError` of `np.amin` on an
empty crossing array), never a default range. -/
theorem claim_C2 (f : List ℚ) :
    (∀ db : List ℚ,
        (∀ z, z + 1 < (dbShift db).length →
          ¬((dbShift db).getD z 0 < 0 ∧ 0 ≤ (dbShift db).getD (z + 1) 0)) →
        bandwidthOf f db = none) ∧
    (∀ (g : ℚ → ℚ) (a : List ℚ) (c : ℚ), (∀ v ∈ a, v = c) →
        bandwidthOf f (dbOf g a) = none) := by
  have main : ∀ db : List ℚ,
      (∀ z, z + 1 < (dbShift db).length →
        ¬((dbShift db).getD z 0 < 0 ∧ 0 ≤ (dbShift db).getD (z + 1) 0)) →
      bandwidthOf f db = none := by
    intro db hnc
    have hidx : crossingIdxs (dbShift db) = [] := by
      apply List.filter_eq_nil_iff.mpr
      intro z hz
      rw [List.mem_range] at hz
      simp only [decide_eq_true_eq]
      exact hnc z (by omega)
    have hbins : crossingBins (dbShift db) = [] := by
      unfold crossingBins
      rw [hidx]
      rfl
    unfold bandwidthOf
    rw [hbins]
  refine ⟨main, ?_⟩
  intro g a c hconst
  apply main
  intro z hz1 hcontra
  have hmem : ∀ u ∈ dbShift (dbOf g a), u = 20 * g c - amaxL (dbOf g a) + 20 := by
    intro u hu
    unfold dbShift at hu
    rw [List.mem_map] at hu
    obtain ⟨w, hw, rfl⟩ := hu
    unfold dbOf at hw
    rw [List.mem_map] at hw
    obtain ⟨v, hv, rfl⟩ := hw
    rw [hconst v hv]
  have e1 := hmem _ (getD_mem_of_lt _ z (by omega))
  have e2 := hmem _ (getD_mem_of_lt _ (z + 1) hz1)
  rw [e1] at hcontra
  rw [e2] at hcontra
  linarith [hcontra.1, hcontra.2]

/-- Claim C2 witness: a flat amplitude spectrum (all samples equal) yields no
crossings, and `bandwidthOf` reports `none`. -/
theorem claim_C2_witness :
    bandwidthOf [0, 1, 2] (dbOf id [3, 3, 3]) = none :=
  (claim_C2 [0, 1, 2]).2 id [3, 3, 3] 3 (by decide)

/-- Claim C5 (amended): when the caller supplies a nonzero `nxlines` to
`from_obspy`, the CALLER's count takes precedence over the header-derived one
(`params.get('nxlines') or nxlines` keeps the caller value), and any
caller-supplied `ninlines` is discarded: line 115 resets it to 1, so the
inline count is later derived from the data shape. The data-shape override of
`nxlines` (with an informational message) happens only in the reshape branch
when the resolved `ninlines` exceeds 1. -/
theorem claim_C5 (d : ObspyDerived) (p : Params)
    (hsaw : anyNonzero d.sawtoothXlines = true) (hnx : p.nxlines ≠ 0) :
    (fromObspyGeometry d p).nxlines = p.nxlines ∧
    (fromObspyGeometry d p).ninlines = 1 := by
  unfold fromObspyGeometry
  rw [hsaw]
  cases hst : anyNonzero d.stairstepInlines <;> simp [hnx]

/-- Claim C5 counterexample: with a sawtooth header pattern deriving
`nxlines = 3` on 6 traces and a caller-supplied `nxlines = 6`, the constructed
model ends with `nxlines = 6` (the caller's count, not the derived 3) and
prints no informational adjustment — refuting "the derived count wins and the
conflict is reported". -/
theorem claim_C5_counterexample :
    patternCount [1, 2, 3, 1, 2, 3] = 3 ∧
    (Seismic.init (Arr.a2 [[1], [2], [3], [4], [5], [6]])
        (fromObspyGeometry ⟨[1, 2, 3, 1, 2, 3], [], [1, 1, 1, 2, 2, 2]⟩
           ⟨none, none, none, 1, 6, none, 0, 1⟩)).map (fun s => (s.nxlines, s.msgs))
      = some (6, []) ∧
    (6 : ℕ) ≠ 3 := by
  refine ⟨by decide, ?_, by decide⟩
  norm_num [Seismic.init, fromObspyGeometry, anyNonzero, someOr, patternCount,
    resolvedNinlines, resolvedNxlines, resolvedNsamples, initMsgs,
    Arr.shape0, Arr.lastDim, linspace1, arange0, List.range_succ]

/-- Claim C5 witness: the amended precedence applied to the concrete inputs of
the counterexample. -/
theorem claim_C5_witness :
    (fromObspyGeometry ⟨[1, 2, 3, 1, 2, 3], [], [1, 1, 1, 2, 2, 2]⟩
        ⟨none, none, none, 1, 6, none, 0, 1⟩).nxlines = 6 ∧
    (fromObspyGeometry ⟨[1, 2, 3, 1, 2, 3], [], [1, 1, 1, 2, 2, 2]⟩
        ⟨none, none, none, 1, 6, none, 0, 1⟩).ninlines = 1 :=
  claim_C5 ⟨[1, 2, 3, 1, 2, 3], [], [1, 1, 1, 2, 2, 2]⟩
    ⟨none, none, none, 1, 6, none, 0, 1⟩ (by decide) (by decide)

/-- Claim C9 (amended): for every well-defined bandwidth estimate over a
nondecreasing frequency axis, `f_min ≤ f_max` holds; but `f_peak` need not lie
between them (see the counterexample: a spectrum peaking at the first bin with
its only threshold crossing above the peak). -/
theorem claim_C9 (g : ℚ → ℚ) (f a : List ℚ) (hf : nondecr f = true)
    (mi fp ma : ℚ) (h : estimateTrace g f a = some (mi, fp, ma)) :
    mi ≤ ma := by
  unfold estimateTrace bandwidthOf at h
  cases hcb : crossingBins (dbShift (dbOf g a)) with
  | nil => rw [hcb] at h; simp at h
  | cons c cs =>
      rw [hcb] at h
      simp only [Option.map_some', Option.some.injEq, Prod.mk.injEq] at h
      rw [← h.1, ← h.2.2]
      exact interp_mono _ (gridPairs_inc f hf 0)
        (aminL_le_amaxL (c :: cs) (List.cons_ne_nil c cs))

/-- Claim C9 counterexample: the amplitude spectrum `[5/4, 1/20, 1]` on the
frequency axis `[0, 10, 20]` (with the dB map instantiated at the monotone
`id`) peaks at the first bin, so `f_peak = 0`, while its only threshold
crossing gives `f_min = f_max = 230/19 > 0`: the claimed
`f_min ≤ f_peak` fails. -/
theorem claim_C9_counterexample :
    estimateTrace id [0, 10, 20] [5/4, 1/20, 1] = some (230/19, 0, 230/19) ∧
    ¬ ((230 : ℚ)/19 ≤ 0) := by
  constructor
  · norm_num [estimateTrace, bandwidthOf, dbOf, dbShift, crossingBins,
      crossingIdxs, amaxL, aminL, fPeak, argmaxIdx, argmaxFrom, gridPairs,
      interp, List.range_succ]
  · norm_num

/-- Claim C9 witness: the amended inequality at a concrete estimate. -/
theorem claim_C9_witness :
    nondecr [0, 10] = true ∧
    estimateTrace id [0, 10] [1, 3] = some (5, 10, 5) ∧ (5 : ℚ) ≤ 5 :=
  ⟨by decide,
   by
    norm_num [estimateTrace, bandwidthOf, dbOf, dbShift, crossingBins,
      crossingIdxs, amaxL, aminL, fPeak, argmaxIdx, argmaxFrom, gridPairs,
      interp, List.range_succ],
   claim_C9 id [0, 10] [1, 3] (by decide) 5 10 5
     (by
      norm_num [estimateTrace, bandwidthOf, dbOf, dbShift, crossingBins,
        crossingIdxs, amaxL, aminL, fPeak, argmaxIdx, argmaxFrom, gridPairs,
        interp, List.range_succ])⟩


/-- Claim C1: for every rectangular data array and geometry where the resolved
`ninlines` exceeds 1 (so the reshape step of line 56 runs), construction fails
— numpy `reshape` raises, surfacing the `GeometryMismatch` condition — exactly
when `ninlines * nxlines` differs from the trace count: the reshape consumes
exactly `ninlines * nxlines` traces or fails visibly, and trailing traces are
never silently dropped. -/
theorem claim_C1 (m : List (List ℚ)) (p : Params) (k : ℕ)
    (hwf : rect m k) (hk : 0 < k) (hm : m ≠ [])
    (hni : 1 < resolvedNinlines (Arr.a2 m) p) :
    (Seismic.init (Arr.a2 m) p = none ↔
      resolvedNinlines (Arr.a2 m) p * resolvedNxlines (Arr.a2 m) p ≠ m.length) := by
  have hld := lastDim_a2 m k hwf hm
  have hfl := flatten_a2_length m k hwf
  unfold Seismic.init
  simp only [hni, if_true]
  unfold reshape3
  rw [hld, hfl]
  by_cases hc : m.length * k
      = resolvedNinlines (Arr.a2 m) p * resolvedNxlines (Arr.a2 m) p * k
  · rw [if_pos hc]
    simp only []
    constructor
    · intro hsome
      exact absurd hsome (by simp)
    · intro hne
      exfalso
      apply hne
      exact (Nat.eq_of_mul_eq_mul_right hk hc).symm
  · rw [if_neg hc]
    constructor
    · intro _
      intro heq
      apply hc
      rw [← heq]
    · intro _
      rfl

/-- Claim C1 witness: 10 traces with supplied `ninlines = 3`, `nxlines = 3`
resolve to `3 × 3 = 9 ≠ 10` and construction reports the mismatch by
failing. -/
theorem claim_C1_witness :
    1 < resolvedNinlines (Arr.a2 [[0], [0], [0], [0], [0], [0], [0], [0], [0], [0]])
        ⟨none, none, none, 3, 3, none, 0, 1⟩ ∧
    resolvedNinlines (Arr.a2 [[0], [0], [0], [0], [0], [0], [0], [0], [0], [0]])
        ⟨none, none, none, 3, 3, none, 0, 1⟩
      * resolvedNxlines (Arr.a2 [[0], [0], [0], [0], [0], [0], [0], [0], [0], [0]])
        ⟨none, none, none, 3, 3, none, 0, 1⟩ ≠ 10 ∧
    Seismic.init (Arr.a2 [[0], [0], [0], [0], [0], [0], [0], [0], [0], [0]])
        ⟨none, none, none, 3, 3, none, 0, 1⟩ = none :=
  ⟨by decide, by decide,
   (claim_C1 [[0], [0], [0], [0], [0], [0], [0], [0], [0], [0]]
      ⟨none, none, none, 3, 3, none, 0, 1⟩ 1
      (by unfold rect; decide) (by decide) (by decide) (by decide)).mpr (by decide)⟩

/-- Claim C7: a successfully constructed model's data is 3D-reshaped exactly
when the resolved `ninlines` exceeds 1 and the resolved `nxlines` is positive;
in every other case the data array is kept exactly as supplied. The reshape is
performed once, inside the constructor, and nothing else rewrites the stored
array. -/
theorem claim_C7 (m : List (List ℚ)) (p : Params) (k : ℕ)
    (hwf : rect m k) (hk : 0 < k) (hm : m ≠ []) (s : Seismic)
    (h : Seismic.init (Arr.a2 m) p = some s) :
    (s.data.threeD = true ↔
      (1 < resolvedNinlines (Arr.a2 m) p ∧ 0 < resolvedNxlines (Arr.a2 m) p)) ∧
    (¬ 1 < resolvedNinlines (Arr.a2 m) p → s.data = Arr.a2 m) := by
  have hld := lastDim_a2 m k hwf hm
  have hfl := flatten_a2_length m k hwf
  unfold Seismic.init at h
  by_cases hni : 1 < resolvedNinlines (Arr.a2 m) p
  · simp only [hni, if_true] at h
    cases hre : reshape3 (resolvedNinlines (Arr.a2 m) p) (resolvedNxlines (Arr.a2 m) p)
        (Arr.a2 m).lastDim (Arr.a2 m).flatten with
    | none => rw [hre] at h; simp at h
    | some c =>
        rw [hre] at h
        simp only [Option.some.injEq] at h
        subst h
        refine ⟨⟨fun _ => ⟨hni, ?_⟩, fun _ => rfl⟩, fun hcon => absurd hni hcon⟩
        unfold reshape3 at hre
        rw [hld, hfl] at hre
        by_cases hcc : m.length * k
            = resolvedNinlines (Arr.a2 m) p * resolvedNxlines (Arr.a2 m) p * k
        · have heq : m.length
              = resolvedNinlines (Arr.a2 m) p * resolvedNxlines (Arr.a2 m) p :=
            Nat.eq_of_mul_eq_mul_right hk hcc
          have hml : 0 < m.length := List.length_pos.mpr hm
          rw [heq] at hml
          exact Nat.pos_of_mul_pos_left (by rwa [Nat.mul_comm] at hml)
        · rw [if_neg hcc] at hre
          exact absurd hre (by simp)
  · simp only [hni, if_false, Option.some.injEq] at h
    subst h
    refine ⟨⟨fun h3 => ?_, fun hcon => absurd hcon.1 hni⟩, fun _ => rfl⟩
    simp [Arr.threeD] at h3

/-- Claim C7 witness: 4 traces with `ninlines = 2` construct a model whose
data is the 3D cube `[[[1],[2]],[[3],[4]]]`, and the 3D-iff-condition holds. -/
theorem claim_C7_witness :
    Seismic.init (Arr.a2 [[1], [2], [3], [4]]) ⟨none, none, none, 2, 0, none, 0, 1⟩
      = some ⟨Arr.a3 [[[1], [2]], [[3], [4]]], 4, [1, 2], [1, 2], 2, 2, 1, 0, 1,
              [0], [Msg.nxlinesChanged 2]⟩ ∧
    ((⟨Arr.a3 [[[1], [2]], [[3], [4]]], 4, [1, 2], [1, 2], 2, 2, 1, 0, 1,
        [0], [Msg.nxlinesChanged 2]⟩ : Seismic).data.threeD = true ↔
      (1 < resolvedNinlines (Arr.a2 [[1], [2], [3], [4]])
          ⟨none, none, none, 2, 0, none, 0, 1⟩ ∧
       0 < resolvedNxlines (Arr.a2 [[1], [2], [3], [4]])
          ⟨none, none, none, 2, 0, none, 0, 1⟩)) := by
  have h : Seismic.init (Arr.a2 [[1], [2], [3], [4]])
      ⟨none, none, none, 2, 0, none, 0, 1⟩
      = some ⟨Arr.a3 [[[1], [2]], [[3], [4]]], 4, [1, 2], [1, 2], 2, 2, 1, 0, 1,
              [0], [Msg.nxlinesChanged 2]⟩ := by
    norm_num [Seismic.init, resolvedNinlines, resolvedNxlines, resolvedNsamples,
      initMsgs, reshape3, Arr.shape0, Arr.lastDim, Arr.flatten,
      linspace1, arange0, List.range_succ]
  exact ⟨h,
    (claim_C7 [[1], [2], [3], [4]] ⟨none, none, none, 2, 0, none, 0, 1⟩ 1
      (by unfold rect; decide) (by decide) (by decide) _ h).1⟩

/-- Claim C8: for a trace spectrum with at least one threshold crossing over a
nondecreasing frequency axis, each crossing index `z` (shifted value negative
at `z`, non-negative at `z + 1`) is converted to the fractional bin
`z + (-sig[z]) / (sig[z+1] - sig[z])` — the formula inside `crossingBins` —
and mapped back to a frequency by linear interpolation against the discrete
frequency axis; the returned `f_min` is the minimum and `f_max` the maximum of
those crossing frequencies (the source interpolates the extreme bins, which
agrees because interpolation against a sorted axis is monotone). -/
theorem claim_C8 (f db : List ℚ) (hf : nondecr f = true)
    (hne : crossingBins (dbShift db) ≠ []) :
    bandwidthOf f db = some (aminL (crossFreqs f db), amaxL (crossFreqs f db)) := by
  unfold bandwidthOf crossFreqs
  cases hcb : crossingBins (dbShift db) with
  | nil => exact absurd hcb hne
  | cons c cs =>
      have hmono : Monotone (fun b => interp b (gridPairs 0 f)) :=
        fun x y hxy => interp_mono _ (gridPairs_inc f hf 0) hxy
      rw [aminL_map _ hmono (c :: cs) (List.cons_ne_nil c cs),
          amaxL_map _ hmono (c :: cs) (List.cons_ne_nil c cs)]

/-- Claim C8 witness: the dB curve `[20, 80]` on the axis `[0, 10]` has the
single crossing bin `2/3`, and the bandwidth equals the min/max of the
interpolated crossing frequencies. -/
theorem claim_C8_witness :
    nondecr [0, 10] = true ∧ crossingBins (dbShift [20, 80]) ≠ [] ∧
    bandwidthOf [0, 10] [20, 80]
      = some (aminL (crossFreqs [0, 10] [20, 80]),
              amaxL (crossFreqs [0, 10] [20, 80])) :=
  ⟨by decide,
   by norm_num [crossingBins, crossingIdxs, dbShift, amaxL, List.range_succ],
   claim_C8 [0, 10] [20, 80] (by decide)
     (by norm_num [crossingBins, crossingIdxs, dbShift, amaxL, List.range_succ])⟩

/-- Claim C6: on a 3D volume, `get_line` interprets an index `l` strictly
between 0 and 1 as a fraction of the requested axis length (the served line is
the one at position `floor(l * axis length)`, e.g. `l = 0.5` selects the
middle line), and an integer index `l ≥ 1` as the absolute line number along
the requested axis, for both the inline and the crossline direction. -/
theorem claim_C6 (s : Seismic) (c : List (List (List ℚ))) (hd : s.data = Arr.a3 c) :
    (∀ l : ℚ, 0 < l → l < 1 →
        (⌊l * (s.ninlines : ℚ)⌋).toNat < c.length →
        Seismic.get_line s l (some "i")
          = some (Arr.a2 (c.getD (⌊l * (s.ninlines : ℚ)⌋).toNat []))) ∧
    (∀ n : ℕ, 1 ≤ n → n < c.length →
        Seismic.get_line s (Nat.cast n) (some "i") = some (Arr.a2 (c.getD n []))) ∧
    (∀ l : ℚ, 0 < l → l < 1 →
        (∀ plane ∈ c, (⌊l * (s.nxlines : ℚ)⌋).toNat < plane.length) →
        Seismic.get_line s l (some "x")
          = some (Arr.a2 (c.map (fun plane =>
              plane.getD (⌊l * (s.nxlines : ℚ)⌋).toNat [])))) ∧
    (∀ n : ℕ, 1 ≤ n → (∀ plane ∈ c, n < plane.length) →
        Seismic.get_line s (Nat.cast n) (some "x")
          = some (Arr.a2 (c.map (fun plane => plane.getD n [])))) := by
  have hlowi : lowerFirst "i" = some 'i' := by decide
  have hlowx : lowerFirst "x" = some 'x' := by decide
  refine ⟨?_, ?_, ?_, ?_⟩
  · intro l h0 h1 hb
    simp only [Seismic.get_line, hd, hlowi]
    rw [if_pos trivial, if_pos h1,
      if_neg (not_lt.mpr (mul_nonneg h0.le (Nat.cast_nonneg _))), if_pos hb]
  · intro n hn hb
    have h1 : ¬ ((Nat.cast n : ℚ) < 1) := not_lt.mpr (by exact_mod_cast hn)
    simp only [Seismic.get_line, hd, hlowi]
    rw [if_pos trivial, if_neg h1, if_neg (not_lt.mpr (Nat.cast_nonneg n))]
    rw [Int.floor_natCast, Int.toNat_natCast]
    rw [if_pos hb]
  · intro l h0 h1 hb
    have hall : (c.all (fun plane =>
        decide ((⌊l * (s.nxlines : ℚ)⌋).toNat < plane.length))) = true :=
      List.all_eq_true.mpr (fun plane hp => decide_eq_true (hb plane hp))
    simp only [Seismic.get_line, hd, hlowx]
    rw [if_neg (by decide : ¬ ('x' : Char) = 'i'), if_pos h1,
      if_neg (not_lt.mpr (mul_nonneg h0.le (Nat.cast_nonneg _)))]
    simp only [hall, if_true]
  · intro n hn hb
    have h1 : ¬ ((Nat.cast n : ℚ) < 1) := not_lt.mpr (by exact_mod_cast hn)
    have hall : (c.all (fun plane =>
        decide ((⌊(Nat.cast n : ℚ)⌋).toNat < plane.length))) = true := by
      apply List.all_eq_true.mpr
      intro plane hp
      apply decide_eq_true
      rw [Int.floor_natCast, Int.toNat_natCast]
      exact hb plane hp
    simp only [Seismic.get_line, hd, hlowx]
    rw [if_neg (by decide : ¬ ('x' : Char) = 'i'), if_neg h1,
      if_neg (not_lt.mpr (Nat.cast_nonneg n))]
    simp only [hall, if_true]
    rw [Int.floor_natCast, Int.toNat_natCast]

/-- Claim C6 witness: on a 2×2×1 volume, the fractional index `0.5` serves the
line at `floor(0.5 * 2) = 1`, the middle of the inline axis. -/
theorem claim_C6_witness :
    Seismic.get_line
        ⟨Arr.a3 [[[1], [2]], [[3], [4]]], 4, [1, 2], [1, 2], 2, 2, 1, 0, 1, [0], []⟩
        (1/2) (some "i")
      = some (Arr.a2 [[3], [4]]) := by
  have h := (claim_C6
      ⟨Arr.a3 [[[1], [2]], [[3], [4]]], 4, [1, 2], [1, 2], 2, 2, 1, 0, 1, [0], []⟩
      [[[1], [2]], [[3], [4]]] rfl).1 (1/2) (by norm_num) (by norm_num) (by norm_num)
  norm_num at h
  exact h

/-- Claim C3 evaluation: on two selected traces with amplitude spectra
`[1, 3]` and `[1, 4]` (dB map instantiated at the monotone `id`), the curve
`plot_spectrum` actually draws is `dbNorm` of the LAST trace's spectrum
(`[-60, 0]`), not `dbNorm` of the element-wise mean spectrum `[1, 7/2]`
(which would be `[-50, 0]`): the computed mean `spec` is dead, `amp` from the
loop is plotted instead. -/
theorem claim_C3_eval :
    (plotSpectrumCompute id [0, 10] [[1, 3], [1, 4]]).map
        (fun r => (r.dispDb, r.meanSpec)) = some ([-60, 0], [1, 7/2]) ∧
    dbNorm id [1, 7/2] = [-50, 0] ∧
    ([-60, 0] : List ℚ) ≠ [-50, 0] := by
  refine ⟨?_, ?_, by norm_num⟩
  · norm_num [plotSpectrumCompute, bandwidthOf, dbOf, dbShift, crossingBins,
      crossingIdxs, amaxL, aminL, fPeak, argmaxIdx, argmaxFrom, gridPairs, interp,
      meanLists, dbNorm, List.range_succ, List.mapM, List.mapM.loop]
  · norm_num [dbNorm, dbOf, amaxL]
